import Mathlib

/-!
Shallow embedding of the identity store of `crypto/keys/keybase.go`.

The store (`dbKeybase`) keeps tagged records (`localInfo` / `ledgerInfo` /
`offlineInfo`) in a key-value database under keys `"<name>.info"`, and exposes
create / restore / derive / list / get / sign / export / import / delete /
update operations.  Pure functions are translated directly; the database is
explicit state threaded through every operation, together with a trace of the
store-write primitives used (`Set`, `SetSync`, `DeleteSync`).  Fallible code
returns an `Outcome`; a Go `panic` that would escape an operation is the
distinguished outcome `Outcome.panicked`.

External collaborators that are not part of this repository (the BIP-39 /
HD-derivation primitives, the secp256k1 and Ledger signers, the amino codec)
are modelled from the spec as fields of an explicit `Crypto` record of opaque
deterministic functions, as section 6 of the spec prescribes.  The armor codec
and the record serialization live in this repository but outside the provided
sources, so they are modelled from the spec as well (invertible framings,
passphrase-authenticated for private keys); each such definition carries a
`Modelled from the spec` note.
-/

namespace Keybase

/-- Raw byte strings (Go `[]byte`), one natural number per byte. -/
abbrev Bytes := List Nat

/-- Signatures are opaque byte strings (`tcrypto.Signature`). -/
abbrev Sig := Bytes

/-- Signing algorithm names; the source `SigningAlgo` is a string alias. -/
abbrev SigningAlgo := String

/-- The single supported signing algorithm (`Secp256k1 SigningAlgo`). -/
def Secp256k1 : SigningAlgo := "secp256k1"

/-- BIP-39 mnemonic languages (`Language` in `keybase.go`); only `English`
is supported by the store. -/
inductive Language where
  | English
  | Japanese
  | Korean
  | Spanish
  | ChineseSimplified
  | ChineseTraditional
  | French
  | Italian
deriving DecidableEq

/-- Public keys are opaque byte strings (`tcrypto.PubKey`). -/
structure PubKey where
  bytes : Bytes
deriving DecidableEq

/-- Private keys: either a local secp256k1 key (`tcrypto.PrivKeySecp256k1`)
or a handle to a Ledger device addressed by its derivation path
(`crypto.NewPrivKeyLedgerSecp256k1`). -/
inductive PrivKey where
  | secp (bytes : Bytes)
  | ledger (path : String)
deriving DecidableEq

/-- Modelled from the spec: the passphrase-based armor text produced by
`encryptArmorPrivKey` (the armor codec is in this repository but outside the
provided sources).  Per spec section 4.2 the armor is an authenticated
encryption of the private key under the passphrase, so it is modelled as the
pair of the key and the encryption passphrase; `empty` stands for the empty
armor string checked by `linfo.PrivKeyArmor == ""`. -/
inductive Armor where
  | empty
  | enc (priv : PrivKey) (passphrase : String)
deriving DecidableEq

/-- Modelled from the spec: `encryptArmorPrivKey` (armor codec, outside the
provided sources). Encryption records the key and the passphrase. -/
def encryptArmorPrivKey (priv : PrivKey) (passphrase : String) : Armor :=
  Armor.enc priv passphrase

/-- Modelled from the spec: `unarmorDecryptPrivKey` (armor codec, outside the
provided sources).  Spec sections 4.2 and 8: decryption succeeds exactly with
the encryption passphrase and fails closed otherwise; the empty armor is
malformed and never decrypts. -/
def unarmorDecryptPrivKey : Armor → String → Option PrivKey
  | Armor.empty, _ => none
  | Armor.enc k p, passphrase => if p = passphrase then some k else none

/-- The tagged record variants stored by the keybase (`localInfo`,
`ledgerInfo`, `offlineInfo` implementing `Info`). -/
inductive Info where
  | localInfo (name : String) (pubKey : PubKey) (privKeyArmor : Armor)
  | ledgerInfo (name : String) (pubKey : PubKey) (path : String)
  | offlineInfo (name : String) (pubKey : PubKey)
deriving DecidableEq

/-- `Info.GetName`. -/
def Info.getName : Info → String
  | Info.localInfo n _ _ => n
  | Info.ledgerInfo n _ _ => n
  | Info.offlineInfo n _ => n

/-- `Info.GetPubKey`. -/
def Info.getPubKey : Info → PubKey
  | Info.localInfo _ p _ => p
  | Info.ledgerInfo _ p _ => p
  | Info.offlineInfo _ p => p

/-- Modelled from the spec: the external cryptography provider of spec
section 6 (BIP-39, HD derivation, secp256k1 signing, Ledger device access,
amino signature decoding), consumed as opaque deterministic primitives. -/
structure Crypto where
  freshMnemonic : Option (List String)
  mnemonicToSeed : String → Bytes
  mnemonicToSeedChecked : String → Option Bytes
  computeMasters : Bytes → Bytes × Bytes
  deriveForPath : Bytes → Bytes → String → Option Bytes
  signSecp : Bytes → Bytes → Option Sig
  pubKeyOf : Bytes → PubKey
  ledgerConnect : String → Option Unit
  devicePub : String → PubKey
  deviceSign : String → Bytes → Option Sig
  decodeSig : String → Option Sig
  pubKeyFromBytes : Bytes → Option PubKey

/-- `priv.Sign(msg)`: local keys sign with the secp256k1 primitive, Ledger
handles sign on the device. -/
def PrivKey.sign (c : Crypto) : PrivKey → Bytes → Option Sig
  | PrivKey.secp k, msg => c.signSecp k msg
  | PrivKey.ledger path, msg => c.deviceSign path msg

/-- `priv.PubKey()`: local keys derive the public key, Ledger handles query
the device. -/
def PrivKey.pubKey (c : Crypto) : PrivKey → PubKey
  | PrivKey.secp k => c.pubKeyOf k
  | PrivKey.ledger path => c.devicePub path

/-- The bytes of a string, for byte-lexicographic key comparison (Go compares
database keys as byte strings). -/
def strBytes (s : String) : Bytes := s.data.map Char.toNat

/-- Go `strings.Split(s, sep)` for a one-character separator: the substrings
between the occurrences of `sep`, with empty pieces kept; the empty string
yields one empty piece. -/
def splitGo (sep : Char) : List Char → List (List Char)
  | [] => [[]]
  | c :: rest =>
    if c = sep then [] :: splitGo sep rest
    else
      match splitGo sep rest with
      | r :: rs => (c :: r) :: rs
      | [] => [[c]]

/-- Strict byte-lexicographic order on byte strings. -/
def bytesLt : Bytes → Bytes → Bool
  | [], [] => false
  | [], _ :: _ => true
  | _ :: _, [] => false
  | a :: as, b :: bs => if a < b then true else if b < a then false else bytesLt as bs

/-- Non-strict byte-lexicographic order on byte strings. -/
def bytesLe : Bytes → Bytes → Bool
  | [], _ => true
  | _ :: _, [] => false
  | a :: as, b :: bs => if a < b then true else if b < a then false else bytesLe as bs

/-- `isPfx x y` holds when `x` is a prefix of `y`. -/
def isPfx : Bytes → Bytes → Bool
  | [], _ => true
  | _ :: _, [] => false
  | a :: as, b :: bs => a == b && isPfx as bs

/-- Two byte strings neither of which is a prefix of the other. -/
def pfxFree (x y : Bytes) : Prop := isPfx x y = false ∧ isPfx y x = false

/-- Database keys (`dbm.DB` keys, here the strings `"<name>.info"`). -/
abbrev Key := String

/-- The persistent record store: an association list from keys to (decoded)
stored records.  Modelled from the spec where it touches code outside the
provided sources: the record serialization (`writeInfo` / `readInfo`) is a
stable invertible mapping with non-empty output, so stored values are
identified with the records themselves and `len(bs) == 0` with absence. -/
abbrev DB := List (Key × Info)

/-- `db.Get(key)`: the value stored under `key`, if any. -/
def DB.get : DB → Key → Option Info
  | [], _ => none
  | kv :: rest, k => if kv.1 = k then some kv.2 else DB.get rest k

/-- The map update shared by `db.Set` and `db.SetSync`: replace the binding
of the key, or append a fresh one.  Durability is recorded separately in the
operation traces. -/
def DB.set : DB → Key → Info → DB
  | [], k, v => [(k, v)]
  | kv :: rest, k, v => if kv.1 = k then (k, v) :: rest else kv :: DB.set rest k v

/-- `db.DeleteSync(key)`: remove every binding of the key. -/
def DB.deleteSync : DB → Key → DB
  | [], _ => []
  | kv :: rest, k => if kv.1 = k then DB.deleteSync rest k else kv :: DB.deleteSync rest k

/-- Key order on store entries, used by the iterator. -/
def entryLe (a b : Key × Info) : Prop := bytesLe (strBytes a.1) (strBytes b.1) = true

instance : DecidableRel entryLe :=
  fun a b => inferInstanceAs (Decidable (bytesLe (strBytes a.1) (strBytes b.1) = true))

/-- `db.Iterator(nil, nil)`: the store iterates its entries in ascending
byte-lexicographic key order (spec section 6: ordered iteration), whatever
the insertion order was. -/
def DB.Iterator (db : DB) : DB := List.insertionSort entryLe db

/-- The store-write primitives distinguished by the database interface:
plain `Set`, durable `SetSync`, durable `DeleteSync`. -/
inductive StoreOp where
  | set (key : Key)
  | setSync (key : Key)
  | deleteSync (key : Key)
deriving DecidableEq

/-- The typed failures surfaced by the store operations (spec section 7). -/
inductive KBErr where
  | unsupportedLanguage
  | unsupportedSigningAlgo
  | mnemonicGenFailed
  | invalidMnemonicLength (got : Nat)
  | invalidFundraiserLength (got : Nat)
  | invalidMnemonicWords
  | derivationFailed
  | keyNotFound (name : String)
  | privKeyNotAvailable
  | decryptionFailed
  | signingFailed
  | ledgerUnavailable
  | onlyLocalPrivKeys
  | cannotOverwrite (name : String)
  | malformedArmor
  | badPubKeyBytes
  | deleteConfirmation
  | readReplyFailed
  | newPassphraseFailed
  | locallyStoredKeyRequired
deriving DecidableEq

/-- The result of one operation: a success value, a typed error returned to
the caller, or an uncaught Go panic escaping the operation. -/
inductive Outcome (α : Type) where
  | ok (val : α)
  | err (e : KBErr)
  | panicked
deriving DecidableEq

/-- Map over the success value of an outcome. -/
def Outcome.map {α β : Type} (f : α → β) : Outcome α → Outcome β
  | Outcome.ok a => Outcome.ok (f a)
  | Outcome.err e => Outcome.err e
  | Outcome.panicked => Outcome.panicked

/-- The full effect of one store operation: its outcome, the database after
the call, and the trace of store-write primitives it performed. -/
structure Res (α : Type) where
  out : Outcome α
  db : DB
  trace : List StoreOp
deriving DecidableEq

/-- The success value of a list-returning operation (empty on failure). -/
def Res.okVals {α : Type} (r : Res (List α)) : List α :=
  match r.out with
  | Outcome.ok l => l
  | _ => []

/-- `infoKey(name)`: records are stored under `"<name>.info"`. -/
def infoKey (name : String) : Key := name ++ ".info"

/-- Modelled from the spec: `hd.FullFundraiserPath`, the fixed default
(fundraiser) HD derivation path; its concrete spelling is immaterial here. -/
def FullFundraiserPath : String := "44-118-0-0-0"

/-- `kb.writeInfo(info, name)`: store the record under `infoKey name` with
the durable `SetSync` primitive. -/
def writeInfo (db : DB) (info : Info) (name : String) : DB × List StoreOp :=
  (DB.set db (infoKey name) info, [StoreOp.setSync (infoKey name)])

/-- `kb.writeLocalKey`: encrypt the private key under the passphrase, build
a local record, persist it. -/
def writeLocalKey (c : Crypto) (db : DB) (priv : PrivKey) (name passphrase : String) :
    Info × DB × List StoreOp :=
  let privArmor := encryptArmorPrivKey priv passphrase
  let pub := priv.pubKey c
  let info := Info.localInfo name pub privArmor
  let w := writeInfo db info name
  (info, w.1, w.2)

/-- `kb.writeLedgerKey`. -/
def writeLedgerKey (db : DB) (pub : PubKey) (path name : String) :
    Info × DB × List StoreOp :=
  let info := Info.ledgerInfo name pub path
  let w := writeInfo db info name
  (info, w.1, w.2)

/-- `kb.writeOfflineKey`. -/
def writeOfflineKey (db : DB) (pub : PubKey) (name : String) :
    Info × DB × List StoreOp :=
  let info := Info.offlineInfo name pub
  let w := writeInfo db info name
  (info, w.1, w.2)

/-- `kb.persistDerivedKey`: compute the master key from the seed, derive the
key at the path; with a non-empty password store an encrypted local record,
otherwise store an offline record of the derived public key. -/
def persistDerivedKey (c : Crypto) (db : DB) (seed : Bytes)
    (passwd name fullHdPath : String) : Res Info :=
  match c.deriveForPath (c.computeMasters seed).1 (c.computeMasters seed).2 fullHdPath with
  | none => ⟨Outcome.err KBErr.derivationFailed, db, []⟩
  | some derivedPriv =>
    if passwd ≠ "" then
      let w := writeLocalKey c db (PrivKey.secp derivedPriv) name passwd
      ⟨Outcome.ok w.1, w.2.1, w.2.2⟩
    else
      let pubk := (PrivKey.secp derivedPriv).pubKey c
      let w := writeOfflineKey db pubk name
      ⟨Outcome.ok w.1, w.2.1, w.2.2⟩

/-- `kb.CreateMnemonic`. -/
def CreateMnemonic (c : Crypto) (db : DB) (name : String) (language : Language)
    (passwd : String) (algo : SigningAlgo) : Res (Info × String) :=
  if language ≠ Language.English then ⟨Outcome.err KBErr.unsupportedLanguage, db, []⟩
  else if algo ≠ Secp256k1 then ⟨Outcome.err KBErr.unsupportedSigningAlgo, db, []⟩
  else
    match c.freshMnemonic with
    | none => ⟨Outcome.err KBErr.mnemonicGenFailed, db, []⟩
    | some mnemonicS =>
      let mnemonic := String.intercalate " " mnemonicS
      let seed := c.mnemonicToSeed mnemonic
      let r := persistDerivedKey c db seed passwd name FullFundraiserPath
      ⟨r.out.map (fun info => (info, mnemonic)), r.db, r.trace⟩

/-- `kb.CreateKey` (restore from a 12- or 24-word mnemonic). -/
def CreateKey (c : Crypto) (db : DB) (name mnemonic passwd : String) : Res Info :=
  let words := splitGo ' ' mnemonic.data
  if words.length ≠ 12 ∧ words.length ≠ 24 then
    ⟨Outcome.err (KBErr.invalidMnemonicLength words.length), db, []⟩
  else
    match c.mnemonicToSeedChecked mnemonic with
    | none => ⟨Outcome.err KBErr.invalidMnemonicWords, db, []⟩
    | some seed => persistDerivedKey c db seed passwd name FullFundraiserPath

/-- `kb.CreateFundraiserKey` (restore from a 12-word mnemonic). -/
def CreateFundraiserKey (c : Crypto) (db : DB) (name mnemonic passwd : String) : Res Info :=
  let words := splitGo ' ' mnemonic.data
  if words.length ≠ 12 then
    ⟨Outcome.err (KBErr.invalidFundraiserLength words.length), db, []⟩
  else
    match c.mnemonicToSeedChecked mnemonic with
    | none => ⟨Outcome.err KBErr.invalidMnemonicWords, db, []⟩
    | some seed => persistDerivedKey c db seed passwd name FullFundraiserPath

/-- `kb.Derive` (restore at an arbitrary HD path; `params` is the rendered
`hd.BIP44Params`). -/
def Derive (c : Crypto) (db : DB) (name mnemonic passwd params : String) : Res Info :=
  match c.mnemonicToSeedChecked mnemonic with
  | none => ⟨Outcome.err KBErr.invalidMnemonicWords, db, []⟩
  | some seed => persistDerivedKey c db seed passwd name params

/-- `kb.CreateLedger`. -/
def CreateLedger (c : Crypto) (db : DB) (name path : String) (algo : SigningAlgo) : Res Info :=
  if algo ≠ Secp256k1 then ⟨Outcome.err KBErr.unsupportedSigningAlgo, db, []⟩
  else
    match c.ledgerConnect path with
    | none => ⟨Outcome.err KBErr.ledgerUnavailable, db, []⟩
    | some _ =>
      let pub := (PrivKey.ledger path).pubKey c
      let w := writeLedgerKey db pub path name
      ⟨Outcome.ok w.1, w.2.1, w.2.2⟩

/-- `kb.CreateOffline`. -/
def CreateOffline (db : DB) (name : String) (pub : PubKey) : Res Info :=
  let w := writeOfflineKey db pub name
  ⟨Outcome.ok w.1, w.2.1, w.2.2⟩

/-- `kb.List`: read every stored record in iteration order. -/
def ListKB (db : DB) : Res (List Info) :=
  ⟨Outcome.ok ((DB.Iterator db).map Prod.snd), db, []⟩

/-- `kb.Get(name)`: fetch the record stored under `infoKey name`, failing
with a not-found error when absent. -/
def Get (db : DB) (name : String) : Outcome Info :=
  match DB.get db (infoKey name) with
  | none => Outcome.err (KBErr.keyNotFound name)
  | some info => Outcome.ok info

/-- The tail of `kb.Sign` shared by the local and Ledger branches:
`sig, err = priv.Sign(msg); pub = priv.PubKey()`. -/
def signRecovered (c : Crypto) (db : DB) (priv : PrivKey) (msg : Bytes) :
    Res (Sig × PubKey) :=
  match priv.sign c msg with
  | none => ⟨Outcome.err KBErr.signingFailed, db, []⟩
  | some sig => ⟨Outcome.ok (sig, priv.pubKey c), db, []⟩

/-- `kb.Sign(name, passphrase, msg)`.  The offline branch prints the message
and reads one reply line from the operator channel (`stdin`; `none` models a
failed `ReadString`), then calls `cdc.MustUnmarshalBinary([]byte(signed), sig)`
where `sig` is the nil named return value passed BY VALUE — there is no `&`
(keybase.go line 232).  The codec is therefore handed a non-pointer nil
destination: under the amino unmarshal contract (which requires a pointer)
the Must-variant panics for every reply, decodable or not, and in no case
can the decoded signature reach the returned `sig`.  So once a reply line is
read, the branch panics. -/
def Sign (c : Crypto) (db : DB) (name passphrase : String) (msg : Bytes)
    (stdin : Option String) : Res (Sig × PubKey) :=
  match Get db name with
  | Outcome.err e => ⟨Outcome.err e, db, []⟩
  | Outcome.panicked => ⟨Outcome.panicked, db, []⟩
  | Outcome.ok info =>
    match info with
    | Info.localInfo _ _ Armor.empty => ⟨Outcome.err KBErr.privKeyNotAvailable, db, []⟩
    | Info.localInfo _ _ (Armor.enc k p) =>
      match unarmorDecryptPrivKey (Armor.enc k p) passphrase with
      | none => ⟨Outcome.err KBErr.decryptionFailed, db, []⟩
      | some priv => signRecovered c db priv msg
    | Info.ledgerInfo _ _ path =>
      match c.ledgerConnect path with
      | none => ⟨Outcome.err KBErr.ledgerUnavailable, db, []⟩
      | some _ => signRecovered c db (PrivKey.ledger path) msg
    | Info.offlineInfo _ _ =>
      match stdin with
      | none => ⟨Outcome.err KBErr.readReplyFailed, db, []⟩
      | some _ => ⟨Outcome.panicked, db, []⟩

/-- `kb.ExportPrivateKeyObject`. -/
def ExportPrivateKeyObject (c : Crypto) (db : DB) (name passphrase : String) : Res PrivKey :=
  match Get db name with
  | Outcome.err e => ⟨Outcome.err e, db, []⟩
  | Outcome.panicked => ⟨Outcome.panicked, db, []⟩
  | Outcome.ok info =>
    match info with
    | Info.localInfo _ _ Armor.empty => ⟨Outcome.err KBErr.privKeyNotAvailable, db, []⟩
    | Info.localInfo _ _ (Armor.enc k p) =>
      match unarmorDecryptPrivKey (Armor.enc k p) passphrase with
      | none => ⟨Outcome.err KBErr.decryptionFailed, db, []⟩
      | some priv => ⟨Outcome.ok priv, db, []⟩
    | Info.ledgerInfo _ _ _ => ⟨Outcome.err KBErr.onlyLocalPrivKeys, db, []⟩
    | Info.offlineInfo _ _ => ⟨Outcome.err KBErr.onlyLocalPrivKeys, db, []⟩

/-- Modelled from the spec: the unencrypted record-armor framing
(`armorInfoBytes` / `unarmorInfoBytes`, outside the provided sources), an
invertible banner framing of serialized records; `malformed` stands for text
that fails to parse. -/
inductive InfoArmor where
  | valid (info : Info)
  | malformed
deriving DecidableEq

/-- Modelled from the spec: `armorInfoBytes`. -/
def armorInfoBytes (info : Info) : InfoArmor := InfoArmor.valid info

/-- Modelled from the spec: `unarmorInfoBytes`. -/
def unarmorInfoBytes : InfoArmor → Option Info
  | InfoArmor.valid info => some info
  | InfoArmor.malformed => none

/-- Modelled from the spec: the public-key armor framing (`armorPubKeyBytes`
/ `unarmorPubKeyBytes`, outside the provided sources). -/
inductive PubArmor where
  | valid (bytes : Bytes)
  | malformed
deriving DecidableEq

/-- Modelled from the spec: `armorPubKeyBytes`. -/
def armorPubKeyBytes (bytes : Bytes) : PubArmor := PubArmor.valid bytes

/-- Modelled from the spec: `unarmorPubKeyBytes`. -/
def unarmorPubKeyBytes : PubArmor → Option Bytes
  | PubArmor.valid b => some b
  | PubArmor.malformed => none

/-- `kb.Export`. -/
def Export (db : DB) (name : String) : Res InfoArmor :=
  match DB.get db (infoKey name) with
  | none => ⟨Outcome.err (KBErr.keyNotFound name), db, []⟩
  | some info => ⟨Outcome.ok (armorInfoBytes info), db, []⟩

/-- `kb.ExportPubKey`. -/
def ExportPubKey (db : DB) (name : String) : Res PubArmor :=
  match DB.get db (infoKey name) with
  | none => ⟨Outcome.err (KBErr.keyNotFound name), db, []⟩
  | some info => ⟨Outcome.ok (armorPubKeyBytes info.getPubKey.bytes), db, []⟩

/-- `kb.Import`: refuse occupied names, otherwise unarmor and store with the
plain (non-durable) `Set` primitive. -/
def Import (db : DB) (name : String) (armor : InfoArmor) : Res Unit :=
  match DB.get db (infoKey name) with
  | some _ => ⟨Outcome.err (KBErr.cannotOverwrite name), db, []⟩
  | none =>
    match unarmorInfoBytes armor with
    | none => ⟨Outcome.err KBErr.malformedArmor, db, []⟩
    | some infoBytes =>
      ⟨Outcome.ok (), DB.set db (infoKey name) infoBytes, [StoreOp.set (infoKey name)]⟩

/-- `kb.ImportPubKey`: refuse occupied names, otherwise unarmor the public
key and store an offline record. -/
def ImportPubKey (c : Crypto) (db : DB) (name : String) (armor : PubArmor) : Res Unit :=
  match DB.get db (infoKey name) with
  | some _ => ⟨Outcome.err (KBErr.cannotOverwrite name), db, []⟩
  | none =>
    match unarmorPubKeyBytes armor with
    | none => ⟨Outcome.err KBErr.malformedArmor, db, []⟩
    | some pubBytes =>
      match c.pubKeyFromBytes pubBytes with
      | none => ⟨Outcome.err KBErr.badPubKeyBytes, db, []⟩
      | some pubKey =>
        let w := writeOfflineKey db pubKey name
        ⟨Outcome.ok (), w.2.1, w.2.2⟩

/-- `kb.Delete(name, passphrase)`: local records require a decrypting
passphrase; the `ledgerInfo` case body is empty and falls through to the
trailing `return nil`; offline records require the literal confirmation
`"yes"`. -/
def Delete (c : Crypto) (db : DB) (name passphrase : String) : Res Unit :=
  match Get db name with
  | Outcome.err e => ⟨Outcome.err e, db, []⟩
  | Outcome.panicked => ⟨Outcome.panicked, db, []⟩
  | Outcome.ok info =>
    match info with
    | Info.localInfo _ _ armor =>
      match unarmorDecryptPrivKey armor passphrase with
      | none => ⟨Outcome.err KBErr.decryptionFailed, db, []⟩
      | some _ =>
        ⟨Outcome.ok (), DB.deleteSync db (infoKey name), [StoreOp.deleteSync (infoKey name)]⟩
    | Info.ledgerInfo _ _ _ => ⟨Outcome.ok (), db, []⟩
    | Info.offlineInfo _ _ =>
      if passphrase ≠ "yes" then ⟨Outcome.err KBErr.deleteConfirmation, db, []⟩
      else
        ⟨Outcome.ok (), DB.deleteSync db (infoKey name), [StoreOp.deleteSync (infoKey name)]⟩

/-- `kb.Update(name, oldpass, getNewpass)`: local records only; re-encrypt
under the passphrase obtained from `getNewpass` (modelled as its result,
`none` for a failed prompt). -/
def Update (c : Crypto) (db : DB) (name oldpass : String) (getNewpass : Option String) :
    Res Unit :=
  match Get db name with
  | Outcome.err e => ⟨Outcome.err e, db, []⟩
  | Outcome.panicked => ⟨Outcome.panicked, db, []⟩
  | Outcome.ok info =>
    match info with
    | Info.localInfo _ _ armor =>
      match unarmorDecryptPrivKey armor oldpass with
      | none => ⟨Outcome.err KBErr.decryptionFailed, db, []⟩
      | some key =>
        match getNewpass with
        | none => ⟨Outcome.err KBErr.newPassphraseFailed, db, []⟩
        | some newpass =>
          let w := writeLocalKey c db key name newpass
          ⟨Outcome.ok (), w.2.1, w.2.2⟩
    | Info.ledgerInfo _ _ _ => ⟨Outcome.err KBErr.locallyStoredKeyRequired, db, []⟩
    | Info.offlineInfo _ _ => ⟨Outcome.err KBErr.locallyStoredKeyRequired, db, []⟩

/-- A concrete instantiation of the external cryptography provider, used to
evaluate the operations on explicit inputs. -/
def testCrypto : Crypto where
  freshMnemonic := some (List.replicate 24 "word")
  mnemonicToSeed := fun s => [s.length]
  mnemonicToSeedChecked := fun s => some [s.length]
  computeMasters := fun seed => (seed, [0])
  deriveForPath := fun m _ p => some (m ++ [p.length])
  signSecp := fun k m => some (k ++ m)
  pubKeyOf := fun k => ⟨0 :: k⟩
  ledgerConnect := fun _ => some ()
  devicePub := fun p => ⟨[1, p.length]⟩
  deviceSign := fun p m => some (p.length :: m)
  decodeSig := fun r => if r = "" then none else some (strBytes r)
  pubKeyFromBytes := fun b => some ⟨b⟩

/-- A concrete offline (watch-only) public key. -/
def pkB : PubKey := ⟨[9]⟩

/-- A store holding one watch-only record named `bob`. -/
def dbBob : DB := (CreateOffline [] "bob" pkB).db

/-- The public key of the concrete local record below. -/
def pkA : PubKey := testCrypto.pubKeyOf [7]

/-- A store holding one local record named `alice`, encrypted under `pw`. -/
def dbAlice : DB :=
  [(infoKey "alice", Info.localInfo "alice" pkA (Armor.enc (PrivKey.secp [7]) "pw"))]

/-- A store holding one Ledger (hardware) record named `carl`. -/
def dbCarl : DB := [(infoKey "carl", Info.ledgerInfo "carl" ⟨[2]⟩ "p1")]

/-- Concrete public keys for the ordering scenario. -/
def pk1 : PubKey := ⟨[1]⟩

/-- Concrete public keys for the ordering scenario. -/
def pk2 : PubKey := ⟨[2]⟩

/-- A store built by registering watch-only records named `a` and then `a!`:
the storage key of `a!` sorts before the storage key of `a`. -/
def dbC9 : DB := (CreateOffline (CreateOffline [] "a" pk1).db "a!" pk2).db

/-- A twelve-word mnemonic for evaluating the restore operations. -/
def mnem12 : String := String.intercalate " " (List.replicate 12 "w")

/-- The record persisted by a successful mnemonic-derived creation: an
encrypted Local record for a non-empty passphrase, a WatchOnly record of the
derived public key for the empty passphrase, stored under the record's key
(spec section 4.1). -/
def VariantSpec (c : Crypto) (name passwd : String) (info : Info) (db2 : DB) : Prop :=
  ∃ kpriv : Bytes,
    (passwd ≠ "" →
      info = Info.localInfo name ((PrivKey.secp kpriv).pubKey c)
        (encryptArmorPrivKey (PrivKey.secp kpriv) passwd)) ∧
    (passwd = "" → info = Info.offlineInfo name ((PrivKey.secp kpriv).pubKey c)) ∧
    DB.get db2 (infoKey name) = some info

/-- Mapping a success function preserves the panic status. -/
theorem Outcome.map_panicked_iff {α β : Type} (f : α → β) (o : Outcome α) :
    Outcome.map f o = Outcome.panicked ↔ o = Outcome.panicked := by
  cases o <;> simp [Outcome.map]

/-- `Get` only returns a record or a typed error. -/
theorem Get_noPanic (db : DB) (name : String) : Get db name ≠ Outcome.panicked := by
  unfold Get
  cases DB.get db (infoKey name) <;> simp

/-- `persistDerivedKey` only returns a record or a typed error. -/
theorem persistDerivedKey_noPanic (c : Crypto) (db : DB) (seed : Bytes)
    (passwd name path : String) :
    (persistDerivedKey c db seed passwd name path).out ≠ Outcome.panicked := by
  unfold persistDerivedKey
  cases c.deriveForPath (c.computeMasters seed).1 (c.computeMasters seed).2 path with
  | none => simp
  | some dp => by_cases h : passwd = "" <;> simp [h]

/-- `CreateMnemonic` never panics. -/
theorem createMnemonic_noPanic (c : Crypto) (db : DB) (name : String)
    (language : Language) (passwd : String) (algo : SigningAlgo) :
    (CreateMnemonic c db name language passwd algo).out ≠ Outcome.panicked := by
  unfold CreateMnemonic
  by_cases h1 : language ≠ Language.English
  · simp [h1]
  · by_cases h2 : algo ≠ Secp256k1
    · simp [h1, h2]
    · cases c.freshMnemonic with
      | none => simp [h1, h2]
      | some ms =>
        simp [h1, h2, Outcome.map_panicked_iff, persistDerivedKey_noPanic]

/-- `CreateKey` never panics. -/
theorem createKey_noPanic (c : Crypto) (db : DB) (name mnemonic passwd : String) :
    (CreateKey c db name mnemonic passwd).out ≠ Outcome.panicked := by
  unfold CreateKey
  by_cases h : (splitGo ' ' mnemonic.data).length ≠ 12 ∧ (splitGo ' ' mnemonic.data).length ≠ 24
  · simp [h]
  · cases c.mnemonicToSeedChecked mnemonic with
    | none => simp [h]
    | some seed => simp [h, persistDerivedKey_noPanic]

/-- `CreateFundraiserKey` never panics. -/
theorem createFundraiserKey_noPanic (c : Crypto) (db : DB) (name mnemonic passwd : String) :
    (CreateFundraiserKey c db name mnemonic passwd).out ≠ Outcome.panicked := by
  unfold CreateFundraiserKey
  by_cases h : (splitGo ' ' mnemonic.data).length ≠ 12
  · simp [h]
  · cases c.mnemonicToSeedChecked mnemonic with
    | none => simp [h]
    | some seed => simp [h, persistDerivedKey_noPanic]

/-- `Derive` never panics. -/
theorem derive_noPanic (c : Crypto) (db : DB) (name mnemonic passwd params : String) :
    (Derive c db name mnemonic passwd params).out ≠ Outcome.panicked := by
  unfold Derive
  cases c.mnemonicToSeedChecked mnemonic with
  | none => simp
  | some seed => simp [persistDerivedKey_noPanic]

/-- `CreateLedger` never panics. -/
theorem createLedger_noPanic (c : Crypto) (db : DB) (name path : String)
    (algo : SigningAlgo) :
    (CreateLedger c db name path algo).out ≠ Outcome.panicked := by
  unfold CreateLedger
  by_cases h : algo ≠ Secp256k1
  · simp [h]
  · cases c.ledgerConnect path with
    | none => simp [h]
    | some u => simp [h]

/-- `CreateOffline` never panics. -/
theorem createOffline_noPanic (db : DB) (name : String) (pub : PubKey) :
    (CreateOffline db name pub).out ≠ Outcome.panicked := by
  simp [CreateOffline]

/-- `ListKB` never panics. -/
theorem listKB_noPanic (db : DB) : (ListKB db).out ≠ Outcome.panicked := by
  simp [ListKB]

/-- `Export` never panics. -/
theorem export_noPanic (db : DB) (name : String) : (Export db name).out ≠ Outcome.panicked := by
  unfold Export
  cases DB.get db (infoKey name) <;> simp

/-- `ExportPubKey` never panics. -/
theorem exportPubKey_noPanic (db : DB) (name : String) :
    (ExportPubKey db name).out ≠ Outcome.panicked := by
  unfold ExportPubKey
  cases DB.get db (infoKey name) <;> simp

/-- `ExportPrivateKeyObject` never panics. -/
theorem exportPrivateKeyObject_noPanic (c : Crypto) (db : DB) (name passphrase : String) :
    (ExportPrivateKeyObject c db name passphrase).out ≠ Outcome.panicked := by
  unfold ExportPrivateKeyObject
  cases hg : Get db name with
  | panicked => exact absurd hg (Get_noPanic db name)
  | err e => simp
  | ok info =>
    cases info with
    | localInfo n pub armor =>
      cases armor with
      | empty => simp
      | enc k p =>
        cases hu : unarmorDecryptPrivKey (Armor.enc k p) passphrase <;> simp [hu]
    | ledgerInfo n pub path => simp
    | offlineInfo n pub => simp

/-- `Import` never panics. -/
theorem import_noPanic (db : DB) (name : String) (armor : InfoArmor) :
    (Import db name armor).out ≠ Outcome.panicked := by
  unfold Import
  cases DB.get db (infoKey name) with
  | some i => simp
  | none => cases unarmorInfoBytes armor <;> simp

/-- `ImportPubKey` never panics. -/
theorem importPubKey_noPanic (c : Crypto) (db : DB) (name : String) (armor : PubArmor) :
    (ImportPubKey c db name armor).out ≠ Outcome.panicked := by
  unfold ImportPubKey
  cases DB.get db (infoKey name) with
  | some i => simp
  | none =>
    cases unarmorPubKeyBytes armor with
    | none => simp
    | some pb => cases hp : c.pubKeyFromBytes pb <;> simp [hp]

/-- `Delete` never panics. -/
theorem delete_noPanic (c : Crypto) (db : DB) (name passphrase : String) :
    (Delete c db name passphrase).out ≠ Outcome.panicked := by
  unfold Delete
  cases hg : Get db name with
  | panicked => exact absurd hg (Get_noPanic db name)
  | err e => simp
  | ok info =>
    cases info with
    | localInfo n pub armor =>
      cases hu : unarmorDecryptPrivKey armor passphrase <;> simp [hu]
    | ledgerInfo n pub path => simp
    | offlineInfo n pub => by_cases h : passphrase ≠ "yes" <;> simp [h]

/-- `Update` never panics. -/
theorem update_noPanic (c : Crypto) (db : DB) (name oldpass : String)
    (getNewpass : Option String) :
    (Update c db name oldpass getNewpass).out ≠ Outcome.panicked := by
  unfold Update
  cases hg : Get db name with
  | panicked => exact absurd hg (Get_noPanic db name)
  | err e => simp
  | ok info =>
    cases info with
    | localInfo n pub armor =>
      cases hu : unarmorDecryptPrivKey armor oldpass with
      | none => simp [hu]
      | some key => cases getNewpass <;> simp [hu]
    | ledgerInfo n pub path => simp
    | offlineInfo n pub => simp

/-- `Sign` panics exactly when the name resolves to a WatchOnly (offline)
record and a reply line is read from the operator channel: there the codec
Must-decode receives the nil named return by value and panics for every
reply; every other path returns a success or a typed error. -/
theorem sign_panicked_iff (c : Crypto) (db : DB) (name passphrase : String) (msg : Bytes)
    (stdin : Option String) :
    (Sign c db name passphrase msg stdin).out = Outcome.panicked ↔
      ((∃ storedName pub, Get db name = Outcome.ok (Info.offlineInfo storedName pub)) ∧
        ∃ reply, stdin = some reply) := by
  cases hg : Get db name with
  | panicked => exact absurd hg (Get_noPanic db name)
  | err e => simp [Sign, hg]
  | ok info =>
    cases info with
    | localInfo n pub armor =>
      cases armor with
      | empty => simp [Sign, hg]
      | enc k p =>
        cases hu : unarmorDecryptPrivKey (Armor.enc k p) passphrase with
        | none => simp [Sign, hg, hu]
        | some priv =>
          cases hs2 : priv.sign c msg <;> simp [Sign, hg, hu, hs2, signRecovered]
    | ledgerInfo n pub path =>
      cases hc : c.ledgerConnect path with
      | none => simp [Sign, hg, hc]
      | some u =>
        cases hs2 : (PrivKey.ledger path).sign c msg <;>
          simp [Sign, hg, hc, hs2, signRecovered]
    | offlineInfo n pub =>
      cases stdin with
      | none => simp [Sign, hg]
      | some signed => simp [Sign, hg]

/-- C2 fails as stated: on a stored WatchOnly record, a malformed external
reply makes `Sign` panic inside `cdc.MustUnmarshalBinary` instead of
returning a typed failure. -/
theorem sign_watchOnly_malformed_reply_panics :
    (Sign testCrypto dbBob "bob" "pw" [1] (some "")).out = Outcome.panicked := by decide

/-- C2 (amended): every operation of the identity store returns a success
value or a typed failure — with the single exception of `Sign` on a
WatchOnly record, which panics (uncaught) exactly when a reply line is read
from the operator channel, since the codec Must-decode is handed the nil
named return by value rather than by pointer; all other `Sign` paths,
including a failed reply read, return typed outcomes. -/
theorem store_operations_return_typed_outcomes (c : Crypto) :
    (∀ db name language passwd algo,
      (CreateMnemonic c db name language passwd algo).out ≠ Outcome.panicked) ∧
    (∀ db name mnemonic passwd,
      (CreateKey c db name mnemonic passwd).out ≠ Outcome.panicked) ∧
    (∀ db name mnemonic passwd,
      (CreateFundraiserKey c db name mnemonic passwd).out ≠ Outcome.panicked) ∧
    (∀ db name mnemonic passwd params,
      (Derive c db name mnemonic passwd params).out ≠ Outcome.panicked) ∧
    (∀ db name path algo, (CreateLedger c db name path algo).out ≠ Outcome.panicked) ∧
    (∀ db name pub, (CreateOffline db name pub).out ≠ Outcome.panicked) ∧
    (∀ db : DB, (ListKB db).out ≠ Outcome.panicked) ∧
    (∀ db name, Get db name ≠ Outcome.panicked) ∧
    (∀ db name, (Export db name).out ≠ Outcome.panicked) ∧
    (∀ db name, (ExportPubKey db name).out ≠ Outcome.panicked) ∧
    (∀ db name passphrase,
      (ExportPrivateKeyObject c db name passphrase).out ≠ Outcome.panicked) ∧
    (∀ db name armor, (Import db name armor).out ≠ Outcome.panicked) ∧
    (∀ db name armor, (ImportPubKey c db name armor).out ≠ Outcome.panicked) ∧
    (∀ db name passphrase, (Delete c db name passphrase).out ≠ Outcome.panicked) ∧
    (∀ db name oldpass getNewpass,
      (Update c db name oldpass getNewpass).out ≠ Outcome.panicked) ∧
    (∀ db name passphrase msg stdin,
      (Sign c db name passphrase msg stdin).out = Outcome.panicked ↔
        ((∃ storedName pub, Get db name = Outcome.ok (Info.offlineInfo storedName pub)) ∧
          ∃ reply, stdin = some reply)) :=
  ⟨fun db name language passwd algo => createMnemonic_noPanic c db name language passwd algo,
   fun db name mnemonic passwd => createKey_noPanic c db name mnemonic passwd,
   fun db name mnemonic passwd => createFundraiserKey_noPanic c db name mnemonic passwd,
   fun db name mnemonic passwd params => derive_noPanic c db name mnemonic passwd params,
   fun db name path algo => createLedger_noPanic c db name path algo,
   fun db name pub => createOffline_noPanic db name pub,
   fun db => listKB_noPanic db,
   fun db name => Get_noPanic db name,
   fun db name => export_noPanic db name,
   fun db name => exportPubKey_noPanic db name,
   fun db name passphrase => exportPrivateKeyObject_noPanic c db name passphrase,
   fun db name armor => import_noPanic db name armor,
   fun db name armor => importPubKey_noPanic c db name armor,
   fun db name passphrase => delete_noPanic c db name passphrase,
   fun db name oldpass getNewpass => update_noPanic c db name oldpass getNewpass,
   fun db name passphrase msg stdin => sign_panicked_iff c db name passphrase msg stdin⟩

/-- Witness for the amended C2: at a concrete store, a failed reply read on
the WatchOnly path yields a typed outcome, not a panic. -/
theorem store_operations_return_typed_outcomes_witness :
    (Sign testCrypto dbBob "bob" "pw" [1] none).out ≠ Outcome.panicked := by
  intro hp
  have h := ((store_operations_return_typed_outcomes
      testCrypto).2.2.2.2.2.2.2.2.2.2.2.2.2.2.2 dbBob "bob" "pw" [1] none).mp hp
  rcases h with ⟨_, reply, hr⟩
  cases hr

/-- Every store write of `persistDerivedKey` is a durable `SetSync` of the
record's key. -/
theorem persistDerivedKey_trace (c : Crypto) (db : DB) (seed : Bytes)
    (passwd name path : String) :
    ∀ op ∈ (persistDerivedKey c db seed passwd name path).trace,
      op = StoreOp.setSync (infoKey name) := by
  unfold persistDerivedKey
  cases c.deriveForPath (c.computeMasters seed).1 (c.computeMasters seed).2 path with
  | none => simp
  | some dp =>
    by_cases h : passwd = "" <;>
      simp [h, writeLocalKey, writeOfflineKey, writeInfo]

/-- C10: every record-persisting operation (`CreateMnemonic`, the restore
and derive operations, `CreateLedger`, `CreateOffline`, `ImportPubKey`,
`Update`) writes only with the durable `SetSync` primitive, deletions use
only the durable `DeleteSync` primitive, and `Import` alone writes the
imported record with the non-durable `Set` primitive. -/
theorem durable_write_discipline (c : Crypto) :
    (∀ db name language passwd algo,
      ∀ op ∈ (CreateMnemonic c db name language passwd algo).trace,
        op = StoreOp.setSync (infoKey name)) ∧
    (∀ db name mnemonic passwd,
      ∀ op ∈ (CreateKey c db name mnemonic passwd).trace,
        op = StoreOp.setSync (infoKey name)) ∧
    (∀ db name mnemonic passwd,
      ∀ op ∈ (CreateFundraiserKey c db name mnemonic passwd).trace,
        op = StoreOp.setSync (infoKey name)) ∧
    (∀ db name mnemonic passwd params,
      ∀ op ∈ (Derive c db name mnemonic passwd params).trace,
        op = StoreOp.setSync (infoKey name)) ∧
    (∀ db name path algo,
      ∀ op ∈ (CreateLedger c db name path algo).trace,
        op = StoreOp.setSync (infoKey name)) ∧
    (∀ db name pub,
      ∀ op ∈ (CreateOffline db name pub).trace, op = StoreOp.setSync (infoKey name)) ∧
    (∀ db name armor,
      ∀ op ∈ (ImportPubKey c db name armor).trace, op = StoreOp.setSync (infoKey name)) ∧
    (∀ db name oldpass getNewpass,
      ∀ op ∈ (Update c db name oldpass getNewpass).trace,
        op = StoreOp.setSync (infoKey name)) ∧
    (∀ db name passphrase,
      ∀ op ∈ (Delete c db name passphrase).trace,
        op = StoreOp.deleteSync (infoKey name)) ∧
    (∀ db name armor,
      ∀ op ∈ (Import db name armor).trace, op = StoreOp.set (infoKey name)) ∧
    (∀ db name armor info,
      DB.get db (infoKey name) = none → unarmorInfoBytes armor = some info →
      Import db name armor =
        ⟨Outcome.ok (), DB.set db (infoKey name) info, [StoreOp.set (infoKey name)]⟩) := by
  refine ⟨?_, ?_, ?_, ?_, ?_, ?_, ?_, ?_, ?_, ?_, ?_⟩
  · intro db name language passwd algo
    unfold CreateMnemonic
    by_cases h1 : language ≠ Language.English
    · simp [h1]
    · by_cases h2 : algo ≠ Secp256k1
      · simp [h1, h2]
      · cases c.freshMnemonic with
        | none => simp [h1, h2]
        | some ms => simpa [h1, h2] using persistDerivedKey_trace c db _ passwd name _
  · intro db name mnemonic passwd
    unfold CreateKey
    by_cases h : (splitGo ' ' mnemonic.data).length ≠ 12 ∧
        (splitGo ' ' mnemonic.data).length ≠ 24
    · simp [h]
    · cases c.mnemonicToSeedChecked mnemonic with
      | none => simp [h]
      | some seed => simpa [h] using persistDerivedKey_trace c db seed passwd name _
  · intro db name mnemonic passwd
    unfold CreateFundraiserKey
    by_cases h : (splitGo ' ' mnemonic.data).length ≠ 12
    · simp [h]
    · cases c.mnemonicToSeedChecked mnemonic with
      | none => simp [h]
      | some seed => simpa [h] using persistDerivedKey_trace c db seed passwd name _
  · intro db name mnemonic passwd params
    unfold Derive
    cases c.mnemonicToSeedChecked mnemonic with
    | none => simp
    | some seed => simpa using persistDerivedKey_trace c db seed passwd name params
  · intro db name path algo
    unfold CreateLedger
    by_cases h : algo ≠ Secp256k1
    · simp [h]
    · cases c.ledgerConnect path with
      | none => simp [h]
      | some u => simp [h, writeLedgerKey, writeInfo]
  · intro db name pub
    simp [CreateOffline, writeOfflineKey, writeInfo]
  · intro db name armor
    unfold ImportPubKey
    cases DB.get db (infoKey name) with
    | some i => simp
    | none =>
      cases unarmorPubKeyBytes armor with
      | none => simp
      | some pb =>
        cases hp : c.pubKeyFromBytes pb with
        | none => simp [hp]
        | some pk => simp [hp, writeOfflineKey, writeInfo]
  · intro db name oldpass getNewpass
    unfold Update
    cases hg : Get db name with
    | panicked => simp
    | err e => simp
    | ok info =>
      cases info with
      | localInfo n pub armor =>
        cases hu : unarmorDecryptPrivKey armor oldpass with
        | none => simp [hu]
        | some key =>
          cases getNewpass with
          | none => simp [hu]
          | some np => simp [hu, writeLocalKey, writeInfo]
      | ledgerInfo n pub path => simp
      | offlineInfo n pub => simp
  · intro db name passphrase
    unfold Delete
    cases hg : Get db name with
    | panicked => simp
    | err e => simp
    | ok info =>
      cases info with
      | localInfo n pub armor =>
        cases hu : unarmorDecryptPrivKey armor passphrase <;> simp [hu]
      | ledgerInfo n pub path => simp
      | offlineInfo n pub => by_cases h : passphrase ≠ "yes" <;> simp [h]
  · intro db name armor
    unfold Import
    cases DB.get db (infoKey name) with
    | some i => simp
    | none => cases hu : unarmorInfoBytes armor <;> simp [hu]
  · intro db name armor info h1 h2
    simp [Import, h1, h2]

/-- Witness for C10: a concrete `Import` writes with the plain `Set`. -/
theorem durable_write_discipline_witness :
    Import [] "bob" (InfoArmor.valid (Info.offlineInfo "bob" pkB)) =
      ⟨Outcome.ok (), DB.set [] (infoKey "bob") (Info.offlineInfo "bob" pkB),
        [StoreOp.set (infoKey "bob")]⟩ :=
  (durable_write_discipline testCrypto).2.2.2.2.2.2.2.2.2.2 []
    "bob" (InfoArmor.valid (Info.offlineInfo "bob" pkB)) (Info.offlineInfo "bob" pkB)
    (by decide) (by decide)

/-- Deleting a key removes every binding of it. -/
theorem DB.get_deleteSync (db : DB) (k : Key) : DB.get (DB.deleteSync db k) k = none := by
  induction db with
  | nil => rfl
  | cons kv rest ih =>
    by_cases h : kv.1 = k
    · simp [DB.deleteSync, h, ih]
    · simp [DB.deleteSync, DB.get, h, ih]

/-- Setting a key stores its value. -/
theorem DB.get_set (db : DB) (k : Key) (v : Info) : DB.get (DB.set db k v) k = some v := by
  induction db with
  | nil => simp [DB.set, DB.get]
  | cons kv rest ih =>
    by_cases h : kv.1 = k
    · simp [DB.set, h, DB.get]
    · simp [DB.set, DB.get, h, ih]

/-- C1: the claim is the spec's intent, but the code cannot meet it.  At a
stored WatchOnly record and a supplied reply that decodes to a signature
under the codec, `Sign` panics in the codec Must-decode — the nil named
return `sig` is handed to `cdc.MustUnmarshalBinary` by value, not by
pointer, so the decoded reply can never reach the returned signature — and
thus never returns the supplied reply. -/
theorem sign_watchOnly_reply_never_returned :
    testCrypto.decodeSig "sg" = some (strBytes "sg") ∧
    (Sign testCrypto dbBob "bob" "pw" [1, 2] (some "sg")).out = Outcome.panicked := by
  decide

/-- C3: deleting a Local record fails and preserves the store unless the
passphrase decrypts the stored armor, and succeeds removing the record with
the encryption passphrase; deleting a WatchOnly record succeeds and removes
the record exactly on the literal confirmation `"yes"` and otherwise fails
preserving the store. -/
theorem delete_local_and_watchOnly_rules (c : Crypto) :
    (∀ (db : DB) (name storedName : String) (pub : PubKey) (k : PrivKey)
        (p passphrase : String),
      Get db name = Outcome.ok (Info.localInfo storedName pub (Armor.enc k p)) →
      (passphrase ≠ p →
        Delete c db name passphrase = ⟨Outcome.err KBErr.decryptionFailed, db, []⟩) ∧
      (passphrase = p →
        Delete c db name passphrase =
          ⟨Outcome.ok (), DB.deleteSync db (infoKey name),
            [StoreOp.deleteSync (infoKey name)]⟩ ∧
        DB.get (Delete c db name passphrase).db (infoKey name) = none)) ∧
    (∀ (db : DB) (name storedName : String) (pub : PubKey) (passphrase : String),
      Get db name = Outcome.ok (Info.offlineInfo storedName pub) →
      (passphrase = "yes" →
        Delete c db name passphrase =
          ⟨Outcome.ok (), DB.deleteSync db (infoKey name),
            [StoreOp.deleteSync (infoKey name)]⟩ ∧
        DB.get (Delete c db name passphrase).db (infoKey name) = none) ∧
      (passphrase ≠ "yes" →
        Delete c db name passphrase = ⟨Outcome.err KBErr.deleteConfirmation, db, []⟩)) := by
  constructor
  · intro db name storedName pub k p passphrase hrec
    constructor
    · intro hne
      have hne2 : p ≠ passphrase := fun h => hne h.symm
      simp [Delete, hrec, unarmorDecryptPrivKey, hne2]
    · intro heq
      subst heq
      constructor
      · simp [Delete, hrec, unarmorDecryptPrivKey]
      · simp [Delete, hrec, unarmorDecryptPrivKey, DB.get_deleteSync]
  · intro db name storedName pub passphrase hrec
    constructor
    · intro heq
      subst heq
      constructor
      · simp [Delete, hrec]
      · simp [Delete, hrec, DB.get_deleteSync]
    · intro hne
      simp [Delete, hrec, hne]

/-- Witness for C3: wrong passphrase on a concrete Local record. -/
theorem delete_local_and_watchOnly_rules_witness :
    Delete testCrypto dbAlice "alice" "bad" =
      ⟨Outcome.err KBErr.decryptionFailed, dbAlice, []⟩ :=
  ((delete_local_and_watchOnly_rules testCrypto).1 dbAlice "alice" "alice" pkA
    (PrivKey.secp [7]) "pw" "bad" (by decide)).1 (by decide)

/-- C4: deleting a stored Hardware (ledger) record returns success for every
passphrase while performing no store write or delete: the matching case is
empty and execution falls through to the unconditional `return nil`. -/
theorem delete_hardware_is_successful_noop (c : Crypto) (db : DB)
    (name storedName : String) (pub : PubKey) (path passphrase : String)
    (hrec : Get db name = Outcome.ok (Info.ledgerInfo storedName pub path)) :
    Delete c db name passphrase = ⟨Outcome.ok (), db, []⟩ := by
  simp [Delete, hrec]

/-- Witness for C4 at a concrete Ledger record. -/
theorem delete_hardware_is_successful_noop_witness :
    Delete testCrypto dbCarl "carl" "anything" = ⟨Outcome.ok (), dbCarl, []⟩ :=
  delete_hardware_is_successful_noop testCrypto dbCarl "carl" "carl" ⟨[2]⟩ "p1"
    "anything" (by decide)

/-- C6: `CreateMnemonic` rejects any language other than English with the
unsupported-language error and (for English) any algorithm other than
secp256k1 with the unsupported-algorithm error, in both cases leaving the
store untouched and performing no write. -/
theorem createMnemonic_rejects_unsupported (c : Crypto) (db : DB) (name : String)
    (language : Language) (passwd : String) (algo : SigningAlgo) :
    (language ≠ Language.English →
      CreateMnemonic c db name language passwd algo =
        ⟨Outcome.err KBErr.unsupportedLanguage, db, []⟩) ∧
    (language = Language.English → algo ≠ Secp256k1 →
      CreateMnemonic c db name language passwd algo =
        ⟨Outcome.err KBErr.unsupportedSigningAlgo, db, []⟩) := by
  constructor
  · intro h
    simp [CreateMnemonic, h]
  · intro h h2
    simp [CreateMnemonic, h, h2]

/-- Witness for C6 at concrete unsupported parameters. -/
theorem createMnemonic_rejects_unsupported_witness :
    CreateMnemonic testCrypto [] "zoe" Language.Japanese "pw" Secp256k1 =
      ⟨Outcome.err KBErr.unsupportedLanguage, [], []⟩ ∧
    CreateMnemonic testCrypto [] "zoe" Language.English "pw" "ed25519" =
      ⟨Outcome.err KBErr.unsupportedSigningAlgo, [], []⟩ :=
  ⟨(createMnemonic_rejects_unsupported testCrypto [] "zoe" Language.Japanese "pw"
      Secp256k1).1 (by decide),
   (createMnemonic_rejects_unsupported testCrypto [] "zoe" Language.English "pw"
      "ed25519").2 rfl (by decide)⟩

/-- C7: `CreateKey` fails with the mnemonic-length validation error unless
the phrase splits on spaces into exactly 12 or 24 words, and
`CreateFundraiserKey` unless it splits into exactly 12 words; in both
failure cases the store is untouched and nothing is written. -/
theorem restore_requires_mnemonic_length (c : Crypto) (db : DB)
    (name mnemonic passwd : String) :
    ((splitGo ' ' mnemonic.data).length ≠ 12 → (splitGo ' ' mnemonic.data).length ≠ 24 →
      CreateKey c db name mnemonic passwd =
        ⟨Outcome.err (KBErr.invalidMnemonicLength (splitGo ' ' mnemonic.data).length),
          db, []⟩) ∧
    ((splitGo ' ' mnemonic.data).length ≠ 12 →
      CreateFundraiserKey c db name mnemonic passwd =
        ⟨Outcome.err (KBErr.invalidFundraiserLength (splitGo ' ' mnemonic.data).length),
          db, []⟩) := by
  constructor
  · intro h1 h2
    simp [CreateKey, h1, h2]
  · intro h1
    simp [CreateFundraiserKey, h1]

/-- Witness for C7: a two-word phrase is rejected by both restores. -/
theorem restore_requires_mnemonic_length_witness :
    CreateKey testCrypto [] "eve" "x y" "pw" =
      ⟨Outcome.err (KBErr.invalidMnemonicLength 2), [], []⟩ ∧
    CreateFundraiserKey testCrypto [] "eve" "x y" "pw" =
      ⟨Outcome.err (KBErr.invalidFundraiserLength 2), [], []⟩ := by
  exact ⟨(restore_requires_mnemonic_length testCrypto [] "eve" "x y" "pw").1
      (by decide) (by decide),
    (restore_requires_mnemonic_length testCrypto [] "eve" "x y" "pw").2 (by decide)⟩

/-- C8: `Import` and `ImportPubKey` on an occupied name fail with the
cannot-overwrite error and leave the store (hence the existing record)
unchanged. -/
theorem import_on_occupied_name_fails (c : Crypto) (db : DB) (name : String)
    (armor : InfoArmor) (parmor : PubArmor) (existing : Info)
    (h : DB.get db (infoKey name) = some existing) :
    Import db name armor = ⟨Outcome.err (KBErr.cannotOverwrite name), db, []⟩ ∧
    ImportPubKey c db name parmor = ⟨Outcome.err (KBErr.cannotOverwrite name), db, []⟩ := by
  constructor <;> simp [Import, ImportPubKey, h]

/-- Witness for C8 at a concrete occupied name. -/
theorem import_on_occupied_name_fails_witness :
    Import dbBob "bob" InfoArmor.malformed =
      ⟨Outcome.err (KBErr.cannotOverwrite "bob"), dbBob, []⟩ ∧
    ImportPubKey testCrypto dbBob "bob" PubArmor.malformed =
      ⟨Outcome.err (KBErr.cannotOverwrite "bob"), dbBob, []⟩ :=
  import_on_occupied_name_fails testCrypto dbBob "bob" InfoArmor.malformed
    PubArmor.malformed (Info.offlineInfo "bob" pkB) (by decide)

/-- Characterization of a successful `persistDerivedKey`: the stored record
is the encrypted Local record (non-empty password) or the WatchOnly record
of the derived public key (empty password), retrievable under its key. -/
theorem persistDerivedKey_variantSpec (c : Crypto) (db : DB) (seed : Bytes)
    (passwd name path : String) (info : Info)
    (h : (persistDerivedKey c db seed passwd name path).out = Outcome.ok info) :
    VariantSpec c name passwd info (persistDerivedKey c db seed passwd name path).db := by
  cases hd : c.deriveForPath (c.computeMasters seed).1 (c.computeMasters seed).2 path with
  | none => simp [persistDerivedKey, hd] at h
  | some dp =>
    by_cases hp : passwd = ""
    · have he : persistDerivedKey c db seed passwd name path =
          ⟨Outcome.ok (Info.offlineInfo name ((PrivKey.secp dp).pubKey c)),
            DB.set db (infoKey name) (Info.offlineInfo name ((PrivKey.secp dp).pubKey c)),
            [StoreOp.setSync (infoKey name)]⟩ := by
        simp [persistDerivedKey, hd, hp, writeOfflineKey, writeInfo]
      rw [he] at h ⊢
      have hx := Outcome.ok.inj h
      subst hx
      exact ⟨dp, fun hne => absurd hp hne, fun _ => rfl, DB.get_set db (infoKey name) _⟩
    · have he : persistDerivedKey c db seed passwd name path =
          ⟨Outcome.ok (Info.localInfo name ((PrivKey.secp dp).pubKey c)
              (encryptArmorPrivKey (PrivKey.secp dp) passwd)),
            DB.set db (infoKey name) (Info.localInfo name ((PrivKey.secp dp).pubKey c)
              (encryptArmorPrivKey (PrivKey.secp dp) passwd)),
            [StoreOp.setSync (infoKey name)]⟩ := by
        simp [persistDerivedKey, hd, hp, writeLocalKey, writeInfo]
      rw [he] at h ⊢
      have hx := Outcome.ok.inj h
      subst hx
      exact ⟨dp, fun _ => rfl, fun he2 => absurd he2 hp, DB.get_set db (infoKey name) _⟩

/-- C5: every creation or restoration operation that derives a key from a
mnemonic (`CreateMnemonic`, `CreateKey`, `CreateFundraiserKey`, `Derive`)
persists, on success, a Local record carrying the passphrase-encrypted
private-key armor when the passphrase is non-empty, and a WatchOnly record
holding only the derived public key when the passphrase is empty. -/
theorem mnemonic_derivation_persists_variant (c : Crypto) :
    (∀ db name language passwd algo info mnemonic2,
      (CreateMnemonic c db name language passwd algo).out = Outcome.ok (info, mnemonic2) →
      VariantSpec c name passwd info (CreateMnemonic c db name language passwd algo).db) ∧
    (∀ db name mnemonic passwd info,
      (CreateKey c db name mnemonic passwd).out = Outcome.ok info →
      VariantSpec c name passwd info (CreateKey c db name mnemonic passwd).db) ∧
    (∀ db name mnemonic passwd info,
      (CreateFundraiserKey c db name mnemonic passwd).out = Outcome.ok info →
      VariantSpec c name passwd info (CreateFundraiserKey c db name mnemonic passwd).db) ∧
    (∀ db name mnemonic passwd params info,
      (Derive c db name mnemonic passwd params).out = Outcome.ok info →
      VariantSpec c name passwd info (Derive c db name mnemonic passwd params).db) := by
  refine ⟨?_, ?_, ?_, ?_⟩
  · intro db name language passwd algo info mnemonic2 h
    by_cases h1 : language ≠ Language.English
    · simp [CreateMnemonic, h1] at h
    · by_cases h2 : algo ≠ Secp256k1
      · simp [CreateMnemonic, h1, h2] at h
      · cases hm : c.freshMnemonic with
        | none => simp [CreateMnemonic, h1, h2, hm] at h
        | some ms =>
          have he : CreateMnemonic c db name language passwd algo =
              ⟨(persistDerivedKey c db (c.mnemonicToSeed (String.intercalate " " ms))
                  passwd name FullFundraiserPath).out.map
                  (fun i => (i, String.intercalate " " ms)),
                (persistDerivedKey c db (c.mnemonicToSeed (String.intercalate " " ms))
                  passwd name FullFundraiserPath).db,
                (persistDerivedKey c db (c.mnemonicToSeed (String.intercalate " " ms))
                  passwd name FullFundraiserPath).trace⟩ := by
            simp [CreateMnemonic, h1, h2, hm]
          rw [he] at h ⊢
          cases hro : (persistDerivedKey c db
              (c.mnemonicToSeed (String.intercalate " " ms)) passwd name
              FullFundraiserPath).out with
          | err e => rw [hro] at h; simp [Outcome.map] at h
          | panicked => rw [hro] at h; simp [Outcome.map] at h
          | ok info2 =>
            rw [hro] at h
            simp [Outcome.map] at h
            obtain ⟨h3, _⟩ := h
            subst h3
            exact persistDerivedKey_variantSpec c db
              (c.mnemonicToSeed (String.intercalate " " ms)) passwd name
              FullFundraiserPath info2 hro
  · intro db name mnemonic passwd info h
    by_cases h12 : (splitGo ' ' mnemonic.data).length ≠ 12 ∧
        (splitGo ' ' mnemonic.data).length ≠ 24
    · simp [CreateKey, h12] at h
    · cases hm : c.mnemonicToSeedChecked mnemonic with
      | none => simp [CreateKey, h12, hm] at h
      | some seed =>
        have he : CreateKey c db name mnemonic passwd =
            persistDerivedKey c db seed passwd name FullFundraiserPath := by
          simp [CreateKey, h12, hm]
        rw [he] at h ⊢
        exact persistDerivedKey_variantSpec c db seed passwd name FullFundraiserPath info h
  · intro db name mnemonic passwd info h
    by_cases h12 : (splitGo ' ' mnemonic.data).length ≠ 12
    · simp [CreateFundraiserKey, h12] at h
    · cases hm : c.mnemonicToSeedChecked mnemonic with
      | none => simp [CreateFundraiserKey, h12, hm] at h
      | some seed =>
        have he : CreateFundraiserKey c db name mnemonic passwd =
            persistDerivedKey c db seed passwd name FullFundraiserPath := by
          simp [CreateFundraiserKey, h12, hm]
        rw [he] at h ⊢
        exact persistDerivedKey_variantSpec c db seed passwd name FullFundraiserPath info h
  · intro db name mnemonic passwd params info h
    cases hm : c.mnemonicToSeedChecked mnemonic with
    | none => simp [Derive, hm] at h
    | some seed =>
      have he : Derive c db name mnemonic passwd params =
          persistDerivedKey c db seed passwd name params := by
        simp [Derive, hm]
      rw [he] at h ⊢
      exact persistDerivedKey_variantSpec c db seed passwd name params info h

/-- Witness for C5: a concrete 12-word restore with non-empty passphrase
persists an encrypted Local record. -/
theorem mnemonic_derivation_persists_variant_witness :
    VariantSpec testCrypto "dave" "pw"
      (Info.localInfo "dave" ⟨[0, 23, 12]⟩ (Armor.enc (PrivKey.secp [23, 12]) "pw"))
      (CreateKey testCrypto [] "dave" mnem12 "pw").db :=
  (mnemonic_derivation_persists_variant testCrypto).2.1 [] "dave" mnem12 "pw"
    (Info.localInfo "dave" ⟨[0, 23, 12]⟩ (Armor.enc (PrivKey.secp [23, 12]) "pw"))
    (by decide)

/-- `bytesLe` is reflexive. -/
theorem bytesLe_refl (x : Bytes) : bytesLe x x = true := by
  induction x with
  | nil => rfl
  | cons a as ih => simp [bytesLe, ih]

/-- `bytesLe` is total. -/
theorem bytesLe_total (x y : Bytes) : bytesLe x y = true ∨ bytesLe y x = true := by
  induction x generalizing y with
  | nil => exact Or.inl rfl
  | cons a as ih =>
    cases y with
    | nil => exact Or.inr rfl
    | cons b bs =>
      rcases Nat.lt_trichotomy a b with h | h | h
      · exact Or.inl (by simp [bytesLe, h])
      · subst h
        rcases ih bs with h2 | h2
        · exact Or.inl (by simp [bytesLe, h2])
        · exact Or.inr (by simp [bytesLe, h2])
      · exact Or.inr (by simp [bytesLe, h])

/-- `bytesLe` is transitive. -/
theorem bytesLe_trans (x y z : Bytes) (h1 : bytesLe x y = true) (h2 : bytesLe y z = true) :
    bytesLe x z = true := by
  induction x generalizing y z with
  | nil => rfl
  | cons a as ih =>
    cases y with
    | nil => simp [bytesLe] at h1
    | cons b bs =>
      cases z with
      | nil => simp [bytesLe] at h2
      | cons cz cs =>
        rcases Nat.lt_trichotomy a b with hab | hab | hab
        · rcases Nat.lt_trichotomy b cz with hbc | hbc | hbc
          · simp [bytesLe, Nat.lt_trans hab hbc]
          · subst hbc
            simp [bytesLe, hab]
          · simp [bytesLe, hbc, Nat.lt_asymm hbc] at h2
        · subst hab
          simp [bytesLe] at h1
          rcases Nat.lt_trichotomy a cz with hbc | hbc | hbc
          · simp [bytesLe, hbc]
          · subst hbc
            simp [bytesLe] at h2
            simp [bytesLe, ih bs cs h1 h2]
          · simp [bytesLe, hbc, Nat.lt_asymm hbc] at h2
        · simp [bytesLe, hab, Nat.lt_asymm hab] at h1

/-- `bytesLe` is antisymmetric. -/
theorem bytesLe_antisymm (x y : Bytes) (h1 : bytesLe x y = true) (h2 : bytesLe y x = true) :
    x = y := by
  induction x generalizing y with
  | nil =>
    cases y with
    | nil => rfl
    | cons b bs => simp [bytesLe] at h2
  | cons a as ih =>
    cases y with
    | nil => simp [bytesLe] at h1
    | cons b bs =>
      rcases Nat.lt_trichotomy a b with hab | hab | hab
      · simp [bytesLe, hab, Nat.lt_asymm hab] at h2
      · subst hab
        simp [bytesLe] at h1 h2
        rw [ih bs h1 h2]
      · simp [bytesLe, hab, Nat.lt_asymm hab] at h1

/-- Strict byte order is the non-strict order together with disequality. -/
theorem bytesLt_iff (x y : Bytes) : bytesLt x y = true ↔ bytesLe x y = true ∧ x ≠ y := by
  induction x generalizing y with
  | nil =>
    cases y with
    | nil => simp [bytesLt, bytesLe]
    | cons b bs => simp [bytesLt, bytesLe]
  | cons a as ih =>
    cases y with
    | nil => simp [bytesLt, bytesLe]
    | cons b bs =>
      rcases Nat.lt_trichotomy a b with hab | hab | hab
      · have hne : a ≠ b := Nat.ne_of_lt hab
        simp [bytesLt, bytesLe, hab, hne]
      · subst hab
        simp [bytesLt, bytesLe]
        exact ih bs
      · simp [bytesLt, bytesLe, hab, Nat.lt_asymm hab]

/-- Strict order from non-strict order and disequality. -/
theorem bytesLt_of_le_of_ne (x y : Bytes) (h1 : bytesLe x y = true) (h2 : x ≠ y) :
    bytesLt x y = true :=
  (bytesLt_iff x y).mpr ⟨h1, h2⟩

/-- Strict byte order is asymmetric. -/
theorem bytesLt_asymm (x y : Bytes) (h1 : bytesLt x y = true) (h2 : bytesLt y x = true) :
    False := by
  rcases (bytesLt_iff x y).mp h1 with ⟨hle1, hne⟩
  rcases (bytesLt_iff y x).mp h2 with ⟨hle2, _⟩
  exact hne (bytesLe_antisymm x y hle1 hle2)

/-- Appending suffixes to prefix-incomparable byte strings does not change
their relative order. -/
theorem bytesLe_append_of_pfxFree (x y s t : Bytes) (h : pfxFree x y) :
    bytesLe (x ++ s) (y ++ t) = bytesLe x y := by
  induction x generalizing y with
  | nil => exact absurd h.1 (by simp [isPfx])
  | cons a as ih =>
    cases y with
    | nil => exact absurd h.2 (by simp [isPfx])
    | cons b bs =>
      by_cases hab : a = b
      · subst hab
        have h2 : pfxFree as bs := by
          rcases h with ⟨hxy, hyx⟩
          simp [isPfx] at hxy hyx
          exact ⟨hxy, hyx⟩
        simp [bytesLe, List.cons_append, ih bs h2]
      · rcases Nat.lt_trichotomy a b with hlt | heq | hgt
        · simp [bytesLe, List.cons_append, hlt]
        · exact absurd heq hab
        · simp [bytesLe, List.cons_append, hgt, Nat.lt_asymm hgt]

/-- `strBytes` distributes over append. -/
theorem strBytes_append (a b : String) : strBytes (a ++ b) = strBytes a ++ strBytes b := by
  simp [strBytes, String.data_append]

/-- The bytes of a storage key split into name bytes and suffix bytes. -/
theorem strBytes_infoKey (name : String) :
    strBytes (infoKey name) = strBytes name ++ strBytes ".info" :=
  strBytes_append name ".info"

/-- C9 fails as stated: with watch-only records named `a` and `a!` (created
in that order), `ListKB` returns the names out of ascending name order,
because the store iterates by the keys `"a.info"` and `"a!.info"`. -/
theorem listKB_not_sorted_by_name_cex :
    (ListKB dbC9).okVals.map Info.getName = ["a!", "a"] ∧
    bytesLt (strBytes "a") (strBytes "a!") = true ∧
    bytesLe (strBytes "a!") (strBytes "a") = false := by decide

/-- C9 (amended): `ListKB` returns the stored records in ascending
byte-lexicographic order of their storage keys `"<name>.info"`; the listing
is independent of the order of record creation (stores holding the same
bindings, without duplicate keys, list identically); and the key order
coincides with ascending name order whenever any two distinct stored names
are prefix-incomparable — but not for arbitrary names. -/
theorem listKB_sorted_by_storage_key :
    (∀ db : DB, (∀ kv ∈ db, kv.1 = infoKey (Info.getName kv.2)) →
      ((ListKB db).okVals).Pairwise (fun i j =>
        bytesLe (strBytes (infoKey (Info.getName i)))
          (strBytes (infoKey (Info.getName j))) = true)) ∧
    (∀ db1 db2 : DB, db1.Perm db2 →
      (db1.map (fun kv => strBytes kv.1)).Nodup →
      (ListKB db1).okVals = (ListKB db2).okVals) ∧
    (∀ db : DB, (∀ kv ∈ db, kv.1 = infoKey (Info.getName kv.2)) →
      (∀ x ∈ db, ∀ y ∈ db,
        pfxFree (strBytes (Info.getName x.2)) (strBytes (Info.getName y.2)) ∨
        Info.getName x.2 = Info.getName y.2) →
      ((ListKB db).okVals).Pairwise (fun i j =>
        bytesLe (strBytes (Info.getName i)) (strBytes (Info.getName j)) = true)) := by
  haveI : IsTotal (Key × Info) entryLe := ⟨fun a b => bytesLe_total _ _⟩
  haveI : IsTrans (Key × Info) entryLe := ⟨fun a b cc hab hbc => bytesLe_trans _ _ _ hab hbc⟩
  refine ⟨?_, ?_, ?_⟩
  · intro db hinv
    have hsorted : (DB.Iterator db).Pairwise entryLe := List.sorted_insertionSort entryLe db
    have hmem : ∀ kv ∈ DB.Iterator db, kv.1 = infoKey (Info.getName kv.2) :=
      fun kv hkv => hinv kv ((List.perm_insertionSort entryLe db).mem_iff.mp hkv)
    have hpair : (DB.Iterator db).Pairwise (fun x y =>
        bytesLe (strBytes (infoKey (Info.getName x.2)))
          (strBytes (infoKey (Info.getName y.2))) = true) := by
      refine hsorted.imp_of_mem ?_
      intro x y hx hy hxy
      rw [← hmem x hx, ← hmem y hy]
      exact hxy
    rw [show (ListKB db).okVals = (DB.Iterator db).map Prod.snd from rfl,
      List.pairwise_map]
    exact hpair
  · intro db1 db2 hperm hnd
    have hp1 : (DB.Iterator db1).Perm db1 := List.perm_insertionSort entryLe db1
    have hp2 : (DB.Iterator db2).Perm db2 := List.perm_insertionSort entryLe db2
    have h12 : (DB.Iterator db1).Perm (DB.Iterator db2) :=
      hp1.trans (hperm.trans hp2.symm)
    have hnd1 : ((DB.Iterator db1).map (fun kv => strBytes kv.1)).Nodup :=
      ((hp1.map (fun kv => strBytes kv.1)).nodup_iff).mpr hnd
    have hnd2 : ((DB.Iterator db2).map (fun kv => strBytes kv.1)).Nodup :=
      ((hp2.map (fun kv => strBytes kv.1)).nodup_iff).mpr
        (((hperm.map (fun kv => strBytes kv.1)).nodup_iff).mp hnd)
    have mkStrict : ∀ l : List (Key × Info), l.Pairwise entryLe →
        (l.map (fun kv => strBytes kv.1)).Nodup →
        l.Pairwise (fun a b => bytesLt (strBytes a.1) (strBytes b.1) = true) := by
      intro l hle hnd0
      have hne0 : (l.map (fun kv => strBytes kv.1)).Pairwise (fun u v => u ≠ v) := hnd0
      have hne : l.Pairwise (fun a b => strBytes a.1 ≠ strBytes b.1) :=
        (List.pairwise_map).mp hne0
      exact (hle.and hne).imp (fun hab => bytesLt_of_le_of_ne _ _ hab.1 hab.2)
    have hs1 : (DB.Iterator db1).Pairwise
        (fun a b => bytesLt (strBytes a.1) (strBytes b.1) = true) :=
      mkStrict _ (List.sorted_insertionSort entryLe db1) hnd1
    have hs2 : (DB.Iterator db2).Pairwise
        (fun a b => bytesLt (strBytes a.1) (strBytes b.1) = true) :=
      mkStrict _ (List.sorted_insertionSort entryLe db2) hnd2
    haveI : IsAntisymm (Key × Info)
        (fun a b => bytesLt (strBytes a.1) (strBytes b.1) = true) :=
      ⟨fun a b hab hba => (bytesLt_asymm _ _ hab hba).elim⟩
    have hiter : DB.Iterator db1 = DB.Iterator db2 :=
      List.eq_of_perm_of_sorted h12 hs1 hs2
    show (DB.Iterator db1).map Prod.snd = (DB.Iterator db2).map Prod.snd
    rw [hiter]
  · intro db hinv hpf
    have hsorted : (DB.Iterator db).Pairwise entryLe := List.sorted_insertionSort entryLe db
    have hmem : ∀ kv ∈ DB.Iterator db, kv.1 = infoKey (Info.getName kv.2) :=
      fun kv hkv => hinv kv ((List.perm_insertionSort entryLe db).mem_iff.mp hkv)
    have hpair : (DB.Iterator db).Pairwise (fun x y =>
        bytesLe (strBytes (Info.getName x.2)) (strBytes (Info.getName y.2)) = true) := by
      refine hsorted.imp_of_mem ?_
      intro x y hx hy hxy
      have hx2 := (List.perm_insertionSort entryLe db).mem_iff.mp hx
      have hy2 := (List.perm_insertionSort entryLe db).mem_iff.mp hy
      have hkey : bytesLe (strBytes (infoKey (Info.getName x.2)))
          (strBytes (infoKey (Info.getName y.2))) = true := by
        rw [← hmem x hx, ← hmem y hy]
        exact hxy
      rcases hpf x hx2 y hy2 with hfree | hsame
      · rw [strBytes_infoKey, strBytes_infoKey,
          bytesLe_append_of_pfxFree _ _ _ _ hfree] at hkey
        exact hkey
      · rw [hsame]
        exact bytesLe_refl _
    rw [show (ListKB db).okVals = (DB.Iterator db).map Prod.snd from rfl,
      List.pairwise_map]
    exact hpair

/-- Witness for the amended C9 at the concrete two-record store. -/
theorem listKB_sorted_by_storage_key_witness :
    ((ListKB dbC9).okVals).Pairwise (fun i j =>
      bytesLe (strBytes (infoKey (Info.getName i)))
        (strBytes (infoKey (Info.getName j))) = true) :=
  listKB_sorted_by_storage_key.1 dbC9 (by decide)

end Keybase
